import Mathlib

/-!
# Shallow embedding of the chimney memory primitives

This file embeds the C sources of the chimney repository in Lean 4 and proves
properties of the embedded operations.

Conventions of the embedding:
* Machine integers (`size_t`, `uintptr_t`) are modelled as `Nat`, reduced
  explicitly modulo `2^w` wherever C arithmetic can wrap; `w` is the word
  width in bits (64 on the usual targets, kept as a parameter).
* Pointers are modelled by their addresses as `Nat`; the null pointer is
  address `0`, so that an allocator returning `NULL` returns `0`, exactly as
  the C comparisons `ptr == NULL` compare against address zero.
* An allocator (`alloc_t` from `src/alloc/unaligned.h`) is an oracle function
  `Nat → Nat → Nat` taking the passed pointer and the requested size and
  returning the resulting pointer (`0` for failure / `NULL`).
* Functions that mutate a struct through a pointer are modelled by returning
  the updated struct together with the C return value.
* Side effects on the memory system (calls to `free`, `memcpy`, and the sizes
  requested from an allocator) are recorded in an explicit trace so that
  claims about "which block was released" or "how many bytes were requested"
  are statable; the trace records the calls in program order and adds no
  behaviour of its own.
* The platform constants are parameters: `w` is the pointer width in bits and
  `t` is `CHIM_PTRTAGBITS_MAX = __builtin_ctz(alignof(max_align_t))`, the
  number of tag bits (4 on the usual targets).
* `__builtin_popcount` and `__builtin_ctz` take `unsigned int`, so a `size_t`
  argument is truncated to its low 32 bits at those call sites, exactly as in
  the C.
* `assert` conditions are modelled as separate `Bool`-valued definitions
  (named `..._assert_ok`) rather than as aborts, so that both the NDEBUG
  behaviour and the assertion predicates themselves can be reasoned about.
* `memcpy` destinations and element payloads are not modelled byte-by-byte:
  none of the properties below depend on the contents of memory, only on
  addresses, sizes, field values and the event trace.
-/

namespace Chimney

/-- Model of `__builtin_popcount` restricted to its mathematical content:
number of set bits of a natural number. Call sites truncate the argument to
32 bits, as C does when passing a `size_t` to `__builtin_popcount`. -/
def popcount (n : Nat) : Nat :=
  if h : n = 0 then 0 else n % 2 + popcount (n / 2)
termination_by n
decreasing_by exact Nat.div_lt_self (Nat.pos_of_ne_zero h) (by decide)

/-- Model of `__builtin_ctz`: number of trailing zero bits. `ctz 0` is
undefined in C; the code below only calls it on values it has checked to
have exactly one set bit, so the value returned at `0` is irrelevant. -/
def ctz (n : Nat) : Nat :=
  if h : n = 0 then 0
  else if n % 2 = 1 then 0
  else ctz (n / 2) + 1
termination_by n
decreasing_by exact Nat.div_lt_self (Nat.pos_of_ne_zero h) (by decide)

/-! ## `src/alignment.h` -/

/-- `alignUp` from `src/alignment.h`:
```
uintptr_t alignUp(uintptr_t bits, size_t alignment_pow2) {
  uintptr_t mask = alignment_pow2 - 1;
  if ((bits & mask) != 0) {
    bits += (~bits & mask) + 1;
  }
  return bits;
}
```
All arithmetic is `uintptr_t`, i.e. modulo `2^w`; `~bits` on a `w`-bit value
is `bits ^^^ (2^w - 1)`. -/
def alignUp (w bits alignment_pow2 : Nat) : Nat :=
  let mask := (alignment_pow2 - 1) % 2^w
  if bits &&& mask ≠ 0 then (bits + (((bits ^^^ (2^w - 1)) &&& mask) + 1)) % 2^w
  else bits

/-- `alignDown` from `src/alignment.h`:
```
uintptr_t alignDown(uintptr_t bits, size_t alignment_pow2) {
  uintptr_t mask = alignment_pow2 - 1;
  return bits & ~mask;
}
``` -/
def alignDown (w bits alignment_pow2 : Nat) : Nat :=
  let mask := (alignment_pow2 - 1) % 2^w
  bits &&& (mask ^^^ (2^w - 1))

/-- Assertion guard of both `alignUp` and `alignDown`:
`assert(__builtin_popcount(alignment_pow2) == 1)`. -/
def align_assert_ok (alignment_pow2 : Nat) : Bool :=
  popcount (alignment_pow2 % 2^32) == 1

/-! ## `src/alloc/tags.h` -/

/-- `CHIM_PTRTAG_PTRMASK = ~(uintptr_t)0 << CHIM_PTRTAGBITS_MAX`, on a `w`-bit
word with `t` tag bits: the all-ones word shifted left by `t`, truncated. -/
def CHIM_PTRTAG_PTRMASK (w t : Nat) : Nat :=
  ((2^w - 1) <<< t) % 2^w

/-- `CHIM_PTRTAG_BITSMASK = ~CHIM_PTRTAG_PTRMASK` (complement within `w` bits). -/
def CHIM_PTRTAG_BITSMASK (w t : Nat) : Nat :=
  CHIM_PTRTAG_PTRMASK w t ^^^ (2^w - 1)

/-- `is_taggable` from `src/alloc/tags.h`:
```
bool is_taggable(void* ptr) {
  bitsptr_t bits = {.p = ptr};
  return (bits.u & CHIM_PTRTAG_PTRMASK) == 0;
}
```
Note that the C source masks with `CHIM_PTRTAG_PTRMASK` (the high bits). -/
def is_taggable (w t ptr : Nat) : Bool :=
  ptr &&& CHIM_PTRTAG_PTRMASK w t == 0

/-- `getTag` from `src/alloc/tags.h`: `ptr.u & CHIM_PTRTAG_BITSMASK`. -/
def getTag (w t u : Nat) : Nat :=
  u &&& CHIM_PTRTAG_BITSMASK w t

/-- `unTag` from `src/alloc/tags.h`: `ptr.u & CHIM_PTRTAG_PTRMASK`,
reinterpreted as a pointer. -/
def unTag (w t u : Nat) : Nat :=
  u &&& CHIM_PTRTAG_PTRMASK w t

/-- Value computed by `setTag` from `src/alloc/tags.h`: `ptr.u | tag`. -/
def setTag (u tag : Nat) : Nat :=
  u ||| tag

/-- Assertion guard of `setTag`: `assert((tag & CHIM_PTRTAGBITS_MAX) == 0)`.
Note that `CHIM_PTRTAGBITS_MAX` is the *number* `t` of tag bits, not a mask. -/
def setTag_assert_ok (t tag : Nat) : Bool :=
  tag &&& t == 0

/-- Value computed by `to_tagged_ptr` from `src/alloc/tags.h`:
`setTag({.p = ptr}, tag)`. -/
def to_tagged_ptr (ptr tag : Nat) : Nat :=
  setTag ptr tag

/-- Conjunction of the assertions executed on a `to_tagged_ptr(ptr, tag)`
call: its own `assert(is_taggable(ptr))` followed by the assert inside
`setTag`. -/
def to_tagged_ptr_asserts_ok (w t ptr tag : Nat) : Bool :=
  is_taggable w t ptr && setTag_assert_ok t tag

/-! ## `src/alloc/aligned.c` -/

/-- Memory-system events produced by `aligned_realloc`: calls to `free` and
to `memcpy` (destination, source, byte count), in program order. -/
inductive AEvent where
  | free (p : Nat)
  | memcpy (dst src n : Nat)
deriving DecidableEq, Repr

/-- The two allocation primitives `aligned_realloc` is built from:
`aligned_alloc(alignment, size)` and `realloc(ptr, size)`, as oracles
returning the new pointer, `0` meaning `NULL` (failure). -/
structure AAllocEnv where
  aligned_alloc : Nat → Nat → Nat
  realloc : Nat → Nat → Nat

/-- `is_aligned` from `src/alloc/aligned.c`:
```
bool is_aligned(const void* restrict ptr, size_t log_alignment) {
  size_t mask = ((size_t)1 << log_alignment) - 1;
  return ((uintptr_t)ptr & mask) == 0;
}
``` -/
def is_aligned (w ptr log_alignment : Nat) : Bool :=
  ptr &&& (((1 <<< log_alignment) - 1) % 2^w) == 0

/-- `aligned_realloc` from `src/alloc/aligned.c` (the function bound to
`std_aalloc`), returning the result pointer and the trace of `free`/`memcpy`
events:
```
void* aligned_realloc(void* ptr, size_t alignment, size_t size) {
  if (ptr == NULL) { return aligned_alloc(alignment, size); }
  else if (size == 0) { free(ptr); return NULL; }
  else {
    if (__builtin_popcount(alignment) != 1) { return NULL; }
    void* new = aligned_alloc(alignment, size);
    if (new == NULL) { return NULL; }
    void* attempt = realloc(ptr, size);
    if (is_aligned(attempt, __builtin_ctz(alignment))) {
      free(new); return attempt;
    } else {
      memcpy(new, attempt, size); free(attempt); return new;
    }
  }
}
``` -/
def aligned_realloc (w : Nat) (env : AAllocEnv) (ptr alignment size : Nat) :
    Nat × List AEvent :=
  if ptr = 0 then (env.aligned_alloc alignment size, [])
  else if size = 0 then (0, [AEvent.free ptr])
  else if popcount (alignment % 2^32) ≠ 1 then (0, [])
  else
    let new := env.aligned_alloc alignment size
    if new = 0 then (0, [])
    else
      let attempt := env.realloc ptr size
      if is_aligned w attempt (ctz (alignment % 2^32)) then
        (attempt, [AEvent.free new])
      else
        (new, [AEvent.memcpy new attempt size, AEvent.free attempt])

/-! ## `src/alloc/unaligned.h` and the buffer engine (`buffer.c`) -/

/-- `allocIn(allocator, size) = allocator(NULL, size)`. -/
def allocIn (mem : Nat → Nat → Nat) (size : Nat) : Nat :=
  mem 0 size

/-- `reallocIn(allocator, ptr, size) = allocator(ptr, size)`. -/
def reallocIn (mem : Nat → Nat → Nat) (ptr size : Nat) : Nat :=
  mem ptr size

/-- The `_dynarr` struct from `src/buffer.h`: capacity, length, and the
address of the backing storage (`0` = `NULL`). -/
structure Dynarr where
  cap : Nat
  len : Nat
  buf : Nat
deriving DecidableEq, Repr

/-- `_dynarr_init` from `buffer.c`, returning the C return value, the updated
struct, and the trace of allocator requests `(passed pointer, size)`:
```
bool _dynarr_init(alloc_t mem, _dynarr* arr, size_t cap0, size_t size) {
  if (cap0 == 0) { return false; }
  if (cap0 * size < size) { return false; }
  arr->buf = allocIn(mem, cap0 * size);
  if (arr->buf == NULL) { return false; }
  arr->cap = cap0;
  arr->len = 0;
  return true;
}
```
The product `cap0 * size` is `size_t` arithmetic, i.e. reduced mod `2^w`. -/
def _dynarr_init (w : Nat) (mem : Nat → Nat → Nat) (arr : Dynarr)
    (cap0 size : Nat) : Bool × Dynarr × List (Nat × Nat) :=
  if cap0 = 0 then (false, arr, [])
  else if (cap0 * size) % 2^w < size then (false, arr, [])
  else
    let req := (cap0 * size) % 2^w
    let arr1 := { arr with buf := allocIn mem req }
    if arr1.buf = 0 then (false, arr1, [(0, req)])
    else (true, { arr1 with cap := cap0, len := 0 }, [(0, req)])

/-- `_dynarr_push` from `buffer.c` (the element payload itself is not
modelled; the `memcpy` of the element into the tail slot touches no struct
field):
```
bool _dynarr_push(alloc_t mem, _dynarr* arr, const void* elem, size_t elemSize) {
  assert(arr->cap != 0);
  if (arr->len == arr->cap) {
    if (arr->cap >= SIZE_MAX/2) { return false; }
    arr->cap *= 2;
    char* new = reallocIn(mem, arr->buf, arr->cap * elemSize);
    if (arr->buf == NULL) { return false; }
    arr->buf = new;
  }
  memcpy(&arr->buf[elemSize * arr->len], elem, elemSize);
  arr->len += 1;
  return true;
}
```
Note that the C source tests `arr->buf == NULL` after the reallocation, and
that `arr->cap` is doubled before it. `SIZE_MAX = 2^w - 1`. -/
def _dynarr_push (w : Nat) (mem : Nat → Nat → Nat) (arr : Dynarr)
    (elemSize : Nat) : Bool × Dynarr × List (Nat × Nat) :=
  if arr.len = arr.cap then
    if (2^w - 1) / 2 ≤ arr.cap then (false, arr, [])
    else
      let arr1 := { arr with cap := (arr.cap * 2) % 2^w }
      let req := (arr1.cap * elemSize) % 2^w
      let new := reallocIn mem arr1.buf req
      if arr1.buf = 0 then (false, arr1, [(arr1.buf, req)])
      else
        let arr2 := { arr1 with buf := new }
        (true, { arr2 with len := (arr2.len + 1) % 2^w }, [(arr1.buf, req)])
  else
    (true, { arr with len := (arr.len + 1) % 2^w }, [])

/-- Assertion guard of `_dynarr_push`: `assert(arr->cap != 0)`. -/
def _dynarr_push_assert_ok (arr : Dynarr) : Bool :=
  arr.cap != 0

/-- `_dynarr_resize` from `buffer.c`:
```
bool _dynarr_resize(alloc_t mem, _dynarr* arr, size_t newCap, size_t elemSize) {
  if (newCap == 0) { return false; }
  char* new = reallocIn(mem, arr->buf, arr->cap * elemSize);
  if (new == NULL) { return false; }
  arr->cap = newCap;
  if (newCap < arr->len) {
    arr->len = newCap;
  }
  arr->buf = new;
  return true;
}
```
Note that the size passed to the allocator is `arr->cap * elemSize`, computed
from the capacity the struct already had. -/
def _dynarr_resize (w : Nat) (mem : Nat → Nat → Nat) (arr : Dynarr)
    (newCap elemSize : Nat) : Bool × Dynarr × List (Nat × Nat) :=
  if newCap = 0 then (false, arr, [])
  else
    let req := (arr.cap * elemSize) % 2^w
    let new := reallocIn mem arr.buf req
    if new = 0 then (false, arr, [(arr.buf, req)])
    else
      let arr1 := { arr with cap := newCap }
      let arr2 := if newCap < arr1.len then { arr1 with len := newCap } else arr1
      (true, { arr2 with buf := new }, [(arr.buf, req)])

/-! ## `src/slice.h` -/

/-- The `_larr` struct from `src/slice.h`: a length and the address of the
first element. -/
structure Larr where
  len : Nat
  arr : Nat
deriving DecidableEq, Repr

/-- `_larr_addrof` from `src/slice.h`:
```
void* _larr_addrof(_larr arr, size_t index, size_t elemSize) {
  if (index < arr.len) { return arr.arr + elemSize * index; }
  else { return NULL; }
}
```
The returned address is `char*` pointer arithmetic on a `w`-bit machine. -/
def _larr_addrof (w : Nat) (a : Larr) (index elemSize : Nat) : Nat :=
  if index < a.len then (a.arr + (elemSize * index) % 2^w) % 2^w
  else 0

/-- `_larr_advance` from `src/slice.h`:
```
void _larr_advance(_larr* arr, size_t numElems, size_t elemSize) {
  if (numElems > arr->len) { numElems = arr->len; }
  arr->len -= numElems;
  arr->arr += elemSize * numElems;
}
``` -/
def _larr_advance (w : Nat) (a : Larr) (numElems elemSize : Nat) : Larr :=
  let n := if numElems > a.len then a.len else numElems
  { len := a.len - n, arr := (a.arr + (elemSize * n) % 2^w) % 2^w }

/-! ## Helper lemmas about the bit arithmetic used by the embedding -/

/-- XOR with an all-ones field is complement within that field. -/
theorem xor_two_pow_sub_one (n : Nat) :
    ∀ a, a < 2^n → a ^^^ (2^n - 1) = 2^n - 1 - a := by
  induction n with
  | zero =>
    intro a ha
    have : a = 0 := by omega
    subst this
    decide
  | succ n ih =>
    intro a ha
    have hpow : 2^(n+1) = 2 * 2^n := by rw [Nat.pow_succ, Nat.mul_comm]
    have hpos : 0 < 2^n := Nat.two_pow_pos n
    have hF2 : (2^(n+1) - 1) / 2 = 2^n - 1 := by omega
    have hFm : (2^(n+1) - 1) % 2 = 1 := by omega
    have hdiv : (a ^^^ (2^(n+1) - 1)) / 2 = 2^n - 1 - a / 2 := by
      rw [Nat.xor_div_two, hF2]
      exact ih (a / 2) (by omega)
    have hx := Nat.div_add_mod (a ^^^ (2^(n+1) - 1)) 2
    have hmod := @Nat.xor_mod_two_eq_one a (2^(n+1) - 1)
    rcases Nat.mod_two_eq_zero_or_one a with h | h
    · have h1 : (a ^^^ (2^(n+1) - 1)) % 2 = 1 := hmod.mpr (by omega)
      omega
    · have h1 : (a ^^^ (2^(n+1) - 1)) % 2 ≠ 1 := fun hc => by
        have := hmod.mp hc
        omega
      have h2 : (a ^^^ (2^(n+1) - 1)) % 2 = 0 := by omega
      omega

/-- The residue of an all-ones word modulo a smaller power of two. -/
theorem two_pow_sub_one_mod (w k : Nat) (hk : k ≤ w) :
    (2^w - 1) % 2^k = 2^k - 1 := by
  have hsplit : 2^w - 1 = (2^k - 1) + 2^k * (2^(w - k) - 1) := by
    have h1 : 2^k * (2^(w - k) - 1) = 2^k * 2^(w - k) - 2^k :=
      Nat.mul_sub_left_distrib _ _ _ |>.trans (by rw [Nat.mul_one])
    have h2 : 2^k * 2^(w - k) = 2^w := by
      rw [← Nat.pow_add]
      congr 1
      omega
    have h3 : 0 < 2^k := Nat.two_pow_pos k
    have h4 : 2^k ≤ 2^w := Nat.pow_le_pow_right (by decide) hk
    omega
  rw [hsplit, Nat.add_mul_mod_self_left]
  exact Nat.mod_eq_of_lt (by have := Nat.two_pow_pos k; omega)

/-- The field of bits `k ≤ i < w`, written as a shifted all-ones block. -/
theorem high_mask_eq (w k : Nat) (hk : k ≤ w) :
    2^w - 2^k = (2^(w - k) - 1) <<< k := by
  rw [Nat.shiftLeft_eq, Nat.mul_sub_right_distrib, Nat.one_mul, ← Nat.pow_add]
  congr 2
  omega

/-- Masking a `w`-bit value with the bits `k ≤ i < w` clears the low `k`
bits: it rounds down to a multiple of `2^k`. -/
theorem land_high (w k x : Nat) (hx : x < 2^w) (hk : k ≤ w) :
    x &&& (2^w - 2^k) = x / 2^k * 2^k := by
  rw [high_mask_eq w k hk]
  have hdiv : x / 2^k * 2^k = (x >>> k) <<< k := by
    rw [Nat.shiftRight_eq_div_pow, Nat.shiftLeft_eq]
  rw [hdiv]
  apply Nat.eq_of_testBit_eq
  intro i
  simp only [Nat.testBit_and, Nat.testBit_shiftLeft, Nat.testBit_shiftRight,
    Nat.testBit_two_pow_sub_one]
  by_cases h1 : k ≤ i
  · have hik : k + (i - k) = i := by omega
    by_cases h2 : i < w
    · have h3 : i - k < w - k := by omega
      simp [h1, h3, hik]
    · have hxi : x.testBit i = false :=
        Nat.testBit_lt_two_pow
          (Nat.lt_of_lt_of_le hx (Nat.pow_le_pow_right (by decide) (by omega)))
      simp [h1, hik, hxi]
  · simp [h1]

/-- Rounding down to a multiple of `2^k` is subtraction of the residue. -/
theorem div_mul_eq_sub_mod (x k : Nat) : x / 2^k * 2^k = x - x % 2^k := by
  have h := Nat.div_add_mod x (2^k)
  have h2 : 2^k * (x / 2^k) = x / 2^k * 2^k := Nat.mul_comm _ _
  omega

/-- `popcount` of a power of two is one. -/
theorem popcount_two_pow (k : Nat) : popcount (2^k) = 1 := by
  induction k with
  | zero =>
    have h0 : popcount 0 = 0 := by
      rw [popcount.eq_def]
      simp
    have h1 : popcount 1 = 1 % 2 + popcount (1 / 2) := by
      rw [popcount.eq_def]
      simp
    norm_num [h1, h0]
  | succ k ih =>
    have hne : 2^(k+1) ≠ 0 := (Nat.two_pow_pos (k+1)).ne'
    rw [popcount.eq_def, dif_neg hne]
    have hmod : 2^(k+1) % 2 = 0 := by
      rw [Nat.pow_succ]
      exact Nat.mul_mod_left _ _
    have hdiv : 2^(k+1) / 2 = 2^k := by
      rw [Nat.pow_succ]
      exact Nat.mul_div_cancel _ (by decide)
    rw [hmod, hdiv, ih]

/-- The null pointer passes the alignment test of `src/alloc/aligned.c` for
every log-alignment. -/
theorem is_aligned_zero (w la : Nat) : is_aligned w 0 la = true := by
  simp [is_aligned]

/-- `CHIM_PTRTAG_PTRMASK` is the field of bits `t ≤ i < w`, arithmetically
`2^w - 2^t`. -/
theorem ptrmask_eq (w t : Nat) (ht : t ≤ w) :
    CHIM_PTRTAG_PTRMASK w t = 2^w - 2^t := by
  unfold CHIM_PTRTAG_PTRMASK
  rw [Nat.shiftLeft_eq, Nat.mul_sub_right_distrib, Nat.one_mul]
  have h2 : 2^w * 2^t = 2^(w + t) := by rw [← Nat.pow_add]
  have h3 : 0 < 2^t := Nat.two_pow_pos t
  have h4 : 2^t ≤ 2^w := Nat.pow_le_pow_right (by decide) ht
  have h5 : 2^w ≤ 2^w * 2^t := Nat.le_mul_of_pos_right _ h3
  have hsplit : 2^w * 2^t - 2^t = (2^w - 2^t) + 2^w * (2^t - 1) := by
    have h6 : 2^w * (2^t - 1) = 2^w * 2^t - 2^w :=
      Nat.mul_sub_left_distrib _ _ _ |>.trans (by rw [Nat.mul_one])
    omega
  rw [hsplit, Nat.add_mul_mod_self_left]
  exact Nat.mod_eq_of_lt (by have := Nat.two_pow_pos w; omega)

/-- `CHIM_PTRTAG_BITSMASK` is the field of the low `t` bits, arithmetically
`2^t - 1`. -/
theorem bitsmask_eq (w t : Nat) (ht : t ≤ w) :
    CHIM_PTRTAG_BITSMASK w t = 2^t - 1 := by
  unfold CHIM_PTRTAG_BITSMASK
  rw [ptrmask_eq w t ht]
  have h4 : 2^t ≤ 2^w := Nat.pow_le_pow_right (by decide) ht
  have h3 : 0 < 2^t := Nat.two_pow_pos t
  rw [xor_two_pow_sub_one w _ (by omega)]
  omega

/-- Behaviour of `aligned_realloc` when the intermediate plain reallocation
fails: the reservation is freed and `NULL` is returned. (The C source reaches
this behaviour through the alignment test, because `is_aligned(NULL, k)` is
true; this lemma isolates the resulting equation, shared by several
theorems below.) -/
theorem aligned_realloc_fail_eq (w : Nat) (env : AAllocEnv)
    (ptr alignment size k : Nat)
    (hptr : ptr ≠ 0) (halign : alignment = 2^k) (hk : k < 32) (hsize : size ≠ 0)
    (hreserve : env.aligned_alloc alignment size ≠ 0)
    (hfail : env.realloc ptr size = 0) :
    aligned_realloc w env ptr alignment size
      = (0, [AEvent.free (env.aligned_alloc alignment size)]) := by
  have hlt : 2^k < 2^32 := Nat.pow_lt_pow_right (by decide) hk
  have hmod : alignment % 2^32 = 2^k := by
    rw [halign]
    exact Nat.mod_eq_of_lt hlt
  have hpop : ¬ popcount (alignment % 2^32) ≠ 1 := by
    rw [hmod, popcount_two_pow]
    omega
  unfold aligned_realloc
  rw [if_neg hptr, if_neg hsize, if_neg hpop]
  simp only [hfail, if_neg hreserve, is_aligned_zero, if_true]

/-- C1: in `aligned_realloc` (`std_aalloc`), for every call with a non-null
pointer, a power-of-two alignment and a nonzero size in which the aligned
reservation succeeded and the intermediate plain reallocation fails
(returns `NULL`), the call frees exactly the reserved aligned block, returns
`NULL` (failure, never success), and performs no `memcpy` from the failed
result. -/
theorem aligned_realloc_validates_intermediate (w : Nat) (env : AAllocEnv)
    (ptr alignment size k : Nat)
    (hptr : ptr ≠ 0) (halign : alignment = 2^k) (hk : k < 32) (hsize : size ≠ 0)
    (hreserve : env.aligned_alloc alignment size ≠ 0)
    (hfail : env.realloc ptr size = 0) :
    (aligned_realloc w env ptr alignment size).1 = 0 ∧
    (aligned_realloc w env ptr alignment size).2
      = [AEvent.free (env.aligned_alloc alignment size)] ∧
    ∀ d s n, AEvent.memcpy d s n ∉ (aligned_realloc w env ptr alignment size).2 := by
  rw [aligned_realloc_fail_eq w env ptr alignment size k
        hptr halign hk hsize hreserve hfail]
  refine ⟨rfl, rfl, ?_⟩
  intro d s n hmem
  simp at hmem

/-- C1 witness: a concrete run with `alignment = 16`, `size = 8`, a reserving
aligned-alloc that returns address 32 and a plain realloc that fails. -/
theorem aligned_realloc_validates_intermediate_witness :
    (aligned_realloc 64 ⟨fun _ _ => 32, fun _ _ => 0⟩ 16 16 8).1 = 0 ∧
    (aligned_realloc 64 ⟨fun _ _ => 32, fun _ _ => 0⟩ 16 16 8).2
      = [AEvent.free 32] ∧
    ∀ d s n, AEvent.memcpy d s n
      ∉ (aligned_realloc 64 ⟨fun _ _ => 32, fun _ _ => 0⟩ 16 16 8).2 :=
  aligned_realloc_validates_intermediate 64 ⟨fun _ _ => 32, fun _ _ => 0⟩ 16 16 8 4
    (by decide) (by decide) (by decide) (by decide) (by decide) rfl

/-- C10: `is_aligned(NULL, k)` is true for every log-alignment `k`, and
consequently when the intermediate plain reallocation inside
`aligned_realloc` fails (returns `NULL`), that `NULL` is classified as
aligned and the cheap path is taken: the reservation is freed and the
(`NULL`) result of the plain reallocation is returned. -/
theorem is_aligned_null_cheap_path (w : Nat) (env : AAllocEnv)
    (ptr alignment size k : Nat)
    (hptr : ptr ≠ 0) (halign : alignment = 2^k) (hk : k < 32) (hsize : size ≠ 0)
    (hreserve : env.aligned_alloc alignment size ≠ 0)
    (hfail : env.realloc ptr size = 0) :
    (∀ la, is_aligned w 0 la = true) ∧
    aligned_realloc w env ptr alignment size
      = (env.realloc ptr size, [AEvent.free (env.aligned_alloc alignment size)]) := by
  refine ⟨fun la => is_aligned_zero w la, ?_⟩
  rw [hfail]
  exact aligned_realloc_fail_eq w env ptr alignment size k
    hptr halign hk hsize hreserve hfail

/-- C10 witness: a concrete run with `alignment = 8`, `size = 24`, a
reserving aligned-alloc returning address 48 and a failing plain realloc. -/
theorem is_aligned_null_cheap_path_witness :
    (∀ la, is_aligned 64 0 la = true) ∧
    aligned_realloc 64 ⟨fun _ _ => 48, fun _ _ => 0⟩ 8 8 24
      = (0, [AEvent.free 48]) :=
  is_aligned_null_cheap_path 64 ⟨fun _ _ => 48, fun _ _ => 0⟩ 8 8 24 3
    (by decide) (by decide) (by decide) (by decide) (by decide) rfl

/-- C2 (code bug): `_dynarr_push` does not leave a failing buffer unchanged.
First conjunct pair: on the buffer `{cap := 1, len := 1, buf := NULL}` the
push returns `false` yet the capacity field has been doubled to 2.
Last conjunct: on a valid buffer `{cap := 4, len := 4, buf := 4096}` with an
allocator whose reallocation fails (returns `NULL`), push returns `true`
while setting `buf` to `NULL`, `cap` to 8 and `len` to 5 — the source tests
`arr->buf == NULL` where `new == NULL` (the just-computed reallocation
result) was intended, and doubles `arr->cap` before any check. -/
theorem dynarr_push_fails_to_restore_state :
    (_dynarr_push 64 (fun _ _ => 7) ⟨1, 1, 0⟩ 1).1 = false ∧
    ((_dynarr_push 64 (fun _ _ => 7) ⟨1, 1, 0⟩ 1).2.1).cap = 2 ∧
    (⟨1, 1, 0⟩ : Dynarr).cap = 1 ∧
    _dynarr_push 64 (fun _ _ => 0) ⟨4, 4, 4096⟩ 1
      = (true, ⟨8, 5, 0⟩, [(4096, 8)]) := by
  decide

/-- C3 (code bug): `_dynarr_resize` passes `arr->cap * elemSize` — computed
from the old capacity — to the allocator, not `newCap * elemSize`: resizing
a buffer of capacity 1 and element size 8 to capacity 4 requests 8 bytes
(trace entry `(16, 8)`), not `4 * 8 = 32`, yet sets the capacity field
to 4. -/
theorem dynarr_resize_reallocates_old_capacity :
    _dynarr_resize 64 (fun _ _ => 32) ⟨1, 0, 16⟩ 4 8
      = (true, ⟨4, 0, 32⟩, [(16, 8)]) ∧
    (8 : Nat) ≠ 4 * 8 := by
  decide

/-- C6 (code bug): the overflow guard `cap0 * size < size` of `_dynarr_init`
misses overflowing products. With `cap0 = 2^63` and `size = 3` on a 64-bit
word the true product `2^63 * 3` exceeds `2^64`, yet the wrapped product is
`2^63`, the guard does not fire, and (with an allocator that succeeds at
address 1) the call returns `true` with capacity `2^63` after requesting
only `2^63` bytes. -/
theorem dynarr_init_overflow_missed :
    2^64 < 2^63 * 3 ∧
    _dynarr_init 64 (fun _ _ => 1) ⟨0, 0, 0⟩ (2^63) 3
      = (true, ⟨2^63, 0, 1⟩, [(0, 2^63)]) := by
  decide

/-- C4 (code bug): `is_taggable` masks with `CHIM_PTRTAG_PTRMASK` (the high
pointer bits) instead of the low tag bits. With `w = 64` and `tagBits = 4`:
address 16 has its low 4 bits clear (it is a multiple of `2^4`) yet is
reported not taggable, while address 1 has a low bit set yet is reported
taggable. -/
theorem is_taggable_tests_wrong_bits :
    is_taggable 64 4 16 = false ∧ (16 : Nat) % 2^4 = 0 ∧
    is_taggable 64 4 1 = true ∧ (1 : Nat) % 2^4 ≠ 0 := by
  decide

/-- C5 (code bug): `setTag` ORs the new tag into the word without clearing
the previous tag bits: on a tagged pointer whose current tag is 1, setting
tag 2 yields tag 3, not 2. Its assertion `(tag & CHIM_PTRTAGBITS_MAX) == 0`
compares against the *count* of tag bits, rejecting the valid tag 4 (< 2^4). -/
theorem setTag_merges_instead_of_replacing :
    getTag 64 4 (setTag 1 2) = 3 ∧ (3 : Nat) ≠ 2 ∧
    setTag 1 2 &&& CHIM_PTRTAG_PTRMASK 64 4 = 1 &&& CHIM_PTRTAG_PTRMASK 64 4 ∧
    setTag_assert_ok 4 4 = false ∧ (4 : Nat) < 2^4 := by
  decide

/-- C7 counterexample: the claimed chain fails as stated. At `x = 1`,
`p = 2` the strict inequality `alignUp(x,p) < alignDown(x,p) + p` is false
(`alignUp 1 2 = 2 = alignDown 1 2 + 2`), and at `x = 2^64 - 1`, `p = 2` the
`uintptr_t` addition inside `alignUp` wraps to 0, so `x ≤ alignUp(x,p)`
fails as well. -/
theorem align_chain_fails_as_stated :
    ¬ (alignUp 64 1 2 < alignDown 64 1 2 + 2) ∧
    alignUp 64 (2^64 - 1) 2 = 0 ∧
    ¬ ((2^64 - 1 : Nat) ≤ alignUp 64 (2^64 - 1) 2) := by
  decide

/-- C7 (amended): for every `w`-bit `x` and power of two `p = 2^k` such that
the rounded-up value cannot wrap (`x + p ≤ 2^w`),
`alignDown(x,p) ≤ x ≤ alignUp(x,p) ≤ alignDown(x,p) + p` (the last bound
non-strict), and both functions return `x` unchanged when `p` divides `x`. -/
theorem align_updown_amended (w x k p : Nat) (hp : p = 2^k) (hk : k ≤ w)
    (hx : x < 2^w) (hfit : x + p ≤ 2^w) :
    alignDown w x p ≤ x ∧ x ≤ alignUp w x p ∧
    alignUp w x p ≤ alignDown w x p + p ∧
    (x % p = 0 → alignUp w x p = x ∧ alignDown w x p = x) := by
  subst hp
  have hkw : 2^k ≤ 2^w := Nat.pow_le_pow_right (by decide) hk
  have hkpos : 0 < 2^k := Nat.two_pow_pos k
  have hwpos : 0 < 2^w := Nat.two_pow_pos w
  have hmask : (2^k - 1) % 2^w = 2^k - 1 := Nat.mod_eq_of_lt (by omega)
  have hxmod : x % 2^k < 2^k := Nat.mod_lt _ hkpos
  have hxmodle : x % 2^k ≤ x := Nat.mod_le _ _
  have hdown : alignDown w x (2^k) = x - x % 2^k := by
    unfold alignDown
    simp only [hmask]
    rw [xor_two_pow_sub_one w (2^k - 1) (by omega)]
    have h1 : 2^w - 1 - (2^k - 1) = 2^w - 2^k := by omega
    rw [h1, land_high w k x hx hk, div_mul_eq_sub_mod]
  have hup : alignUp w x (2^k)
      = if x % 2^k = 0 then x else x - x % 2^k + 2^k := by
    unfold alignUp
    simp only [hmask, Nat.and_pow_two_sub_one_eq_mod]
    by_cases h : x % 2^k = 0
    · rw [if_neg (fun hc => hc h), if_pos h]
    · rw [if_pos h, if_neg h]
      have hxor : (x ^^^ (2^w - 1)) % 2^k = 2^k - 1 - x % 2^k := by
        rw [← Nat.and_pow_two_sub_one_eq_mod, Nat.and_xor_distrib_right,
            Nat.and_pow_two_sub_one_eq_mod, Nat.and_pow_two_sub_one_eq_mod,
            two_pow_sub_one_mod w k hk, xor_two_pow_sub_one k _ hxmod]
      rw [hxor]
      have h2 : x + (2^k - 1 - x % 2^k + 1) = x - x % 2^k + 2^k := by omega
      rw [h2]
      exact Nat.mod_eq_of_lt (by omega)
  refine ⟨?_, ?_, ?_, ?_⟩
  · rw [hdown]
    omega
  · rw [hup]
    split <;> omega
  · rw [hup, hdown]
    split <;> omega
  · intro h
    rw [hup, hdown, if_pos h]
    omega

/-- C7 witness: the amended bounds at `w = 64`, `x = 32`, `p = 16`. -/
theorem align_updown_amended_witness :
    alignDown 64 32 16 ≤ 32 ∧ 32 ≤ alignUp 64 32 16 ∧
    alignUp 64 32 16 ≤ alignDown 64 32 16 + 16 ∧
    ((32 : Nat) % 16 = 0 → alignUp 64 32 16 = 32 ∧ alignDown 64 32 16 = 32) :=
  align_updown_amended 64 32 4 16 (by norm_num) (by omega) (by norm_num)
    (by norm_num)

/-- C8 counterexample: the round-trip claim as stated includes that the
internal contract assertions pass for every sufficiently aligned pointer and
small tag, but the assertions reject the valid input `ptr = 16` (a multiple
of `2^4`), `tag = 0`, because `is_taggable` tests the high bits. -/
theorem to_tagged_ptr_asserts_reject_valid_input :
    (16 : Nat) % 2^4 = 0 ∧ (0 : Nat) < 2^4 ∧
    to_tagged_ptr_asserts_ok 64 4 16 0 = false := by
  decide

/-- C8 (amended): for every `w`-bit pointer whose address is a multiple of
`2^t` and every tag `< 2^t`, packing then unwrapping round-trips bit-exactly:
`unTag (to_tagged_ptr ptr tag) = ptr` and
`getTag (to_tagged_ptr ptr tag) = tag` — though the internal assertions do
not pass for all such inputs. -/
theorem tagged_ptr_roundtrip (w t ptr tag : Nat) (ht : t ≤ w)
    (hptr : ptr < 2^w) (hal : ptr % 2^t = 0) (htag : tag < 2^t) :
    unTag w t (to_tagged_ptr ptr tag) = ptr ∧
    getTag w t (to_tagged_ptr ptr tag) = tag := by
  have htpos : 0 < 2^t := Nat.two_pow_pos t
  have hdvd : 2^t ∣ ptr := Nat.dvd_of_mod_eq_zero hal
  obtain ⟨q, hq⟩ := hdvd
  have hor : to_tagged_ptr ptr tag = ptr + tag := by
    unfold to_tagged_ptr setTag
    rw [hq]
    exact (Nat.mul_add_lt_is_or htag q).symm
  have hsum : ptr + tag < 2^w := by
    by_contra hge
    push_neg at hge
    have hd2 : 2^t ∣ 2^w := pow_dvd_pow 2 ht
    have hsub : 2^t ∣ (2^w - ptr) := Nat.dvd_sub' hd2 (Nat.dvd_of_mod_eq_zero hal)
    have hpos2 : 0 < 2^w - ptr := by omega
    have := Nat.le_of_dvd hpos2 hsub
    omega
  constructor
  · unfold unTag
    rw [hor, ptrmask_eq w t ht, land_high w t (ptr + tag) hsum ht, hq,
        Nat.mul_add_div htpos, Nat.div_eq_of_lt htag, Nat.add_zero]
    exact Nat.mul_comm _ _
  · unfold getTag
    rw [hor, bitsmask_eq w t ht, Nat.and_pow_two_sub_one_eq_mod, hq,
        Nat.mul_add_mod]
    exact Nat.mod_eq_of_lt htag

/-- C8 witness: the round-trip at `w = 64`, `t = 4`, `ptr = 32`, `tag = 5`. -/
theorem tagged_ptr_roundtrip_witness :
    unTag 64 4 (to_tagged_ptr 32 5) = 32 ∧
    getTag 64 4 (to_tagged_ptr 32 5) = 5 :=
  tagged_ptr_roundtrip 64 4 32 5 (by omega) (by norm_num) (by norm_num)
    (by norm_num)

/-- C9: `_larr_advance` clamps the element count to the current length,
leaves the slice with length `oldLength - n` (truncated subtraction, i.e.
`max (0, oldLength - n)`), advances the pointer by exactly
`(clamped n) * elemSize` bytes, and for `n ≤ oldLength` the address of
index 0 after the advance equals the address of index `n` before it. The
hypothesis says the slice's byte extent fits in the address space, so no
pointer arithmetic wraps. -/
theorem larr_advance_spec (w : Nat) (a : Larr) (numElems elemSize : Nat)
    (hfit : a.arr + elemSize * a.len < 2^w) :
    (_larr_advance w a numElems elemSize).len = a.len - numElems ∧
    (_larr_advance w a numElems elemSize).arr
      = a.arr + elemSize * min numElems a.len ∧
    (numElems ≤ a.len →
      _larr_addrof w (_larr_advance w a numElems elemSize) 0 elemSize
        = _larr_addrof w a numElems elemSize) := by
  have hwpos : 0 < 2^w := Nat.two_pow_pos w
  by_cases h : numElems > a.len
  · have hadv : _larr_advance w a numElems elemSize
        = { len := a.len - a.len
          , arr := (a.arr + (elemSize * a.len) % 2^w) % 2^w } := by
      unfold _larr_advance
      rw [if_pos h]
    have hm1 : (elemSize * a.len) % 2^w = elemSize * a.len :=
      Nat.mod_eq_of_lt (by omega)
    have hm2 : (a.arr + elemSize * a.len) % 2^w = a.arr + elemSize * a.len :=
      Nat.mod_eq_of_lt (by omega)
    refine ⟨?_, ?_, ?_⟩
    · rw [hadv]
      simp only
      omega
    · rw [hadv]
      simp only [hm1, hm2]
      rw [Nat.min_eq_right (Nat.le_of_lt h)]
    · intro hle
      exfalso
      omega
  · have hle : numElems ≤ a.len := Nat.le_of_not_lt h
    have hadv : _larr_advance w a numElems elemSize
        = { len := a.len - numElems
          , arr := (a.arr + (elemSize * numElems) % 2^w) % 2^w } := by
      unfold _larr_advance
      rw [if_neg h]
    have hmul : elemSize * numElems ≤ elemSize * a.len :=
      Nat.mul_le_mul_left _ hle
    have hm1 : (elemSize * numElems) % 2^w = elemSize * numElems :=
      Nat.mod_eq_of_lt (by omega)
    have hm2 : (a.arr + elemSize * numElems) % 2^w
        = a.arr + elemSize * numElems :=
      Nat.mod_eq_of_lt (by omega)
    refine ⟨?_, ?_, ?_⟩
    · rw [hadv]
    · rw [hadv]
      simp only [hm1, hm2]
      rw [Nat.min_eq_left hle]
    · intro _
      rw [hadv]
      unfold _larr_addrof
      simp only [hm1, hm2]
      by_cases h0 : numElems < a.len
      · rw [if_pos (by omega), if_pos h0]
        simp only [Nat.mul_zero, Nat.zero_mod, Nat.add_zero, hm1, hm2]
      · rw [if_neg (by omega), if_neg h0]

/-- C9 witness: advancing the slice `{len := 10, arr := 1000}` by 3 elements
of size 4. -/
theorem larr_advance_spec_witness :
    (_larr_advance 64 ⟨10, 1000⟩ 3 4).len = 10 - 3 ∧
    (_larr_advance 64 ⟨10, 1000⟩ 3 4).arr = 1000 + 4 * min 3 10 ∧
    (3 ≤ 10 →
      _larr_addrof 64 (_larr_advance 64 ⟨10, 1000⟩ 3 4) 0 4
        = _larr_addrof 64 ⟨10, 1000⟩ 3 4) :=
  larr_advance_spec 64 ⟨10, 1000⟩ 3 4 (by norm_num)

end Chimney
